import Mathlib

/-!
A shallow embedding of the document-library screen of the Image-To-PDF app
(`src/app/(tabs)/index.tsx`, with the older variant of the same screen found in
`src/unnamed/part_001`), together with theorems about its behaviour.

Modelling conventions:
* JS strings are modelled as `List Char` (`Str`).
* JS numeric timestamps (seconds since epoch) are modelled as `Int`.
* The file system is modelled as a partial map from path to an abstract
  content identifier (`FS := Str → Option Nat`).
* Fallible external calls (`FileSystem.getInfoAsync`, `copyAsync`,
  `deleteAsync`, the render service) are modelled with `Option`/`Except`;
  `none`/`.error` stands for a thrown exception.
* `FileSystem.copyAsync` is modelled as overwriting an existing destination
  (per the expo documentation of `copyAsync`).
* Locale-dependent formatting (`toLocaleDateString`, `toFixed`) is threaded
  through as opaque-in-the-model function parameters of the environment.
-/

namespace ImageToPdf

/-- JS strings, modelled as lists of characters. -/
abbrev Str := List Char

/-- `String.prototype.toLowerCase` (ASCII lowering, the relevant range for file names). -/
def toLowerStr (s : Str) : Str := s.map Char.toLower

/-- `String.prototype.endsWith`. -/
def endsWithB (s suf : Str) : Bool := decide (suf <:+ s)

/-- `String.prototype.includes` (substring test). -/
def includesB (s sub : Str) : Bool := decide (sub <:+: s)

/-- JS whitespace test used by `String.prototype.trim` (common whitespace characters). -/
def isSpaceChar (c : Char) : Bool := (c == ' ') || (c == '\t') || (c == '\n') || (c == '\r')

/-- `String.prototype.trim`: strip whitespace from both ends. -/
def trimStr (s : Str) : Str :=
  ((s.dropWhile isSpaceChar).reverse.dropWhile isSpaceChar).reverse

/-- `String.prototype.replace` with a plain (non-global) pattern:
replace the first occurrence of `pat` by `rep`. -/
def replaceFirst (pat rep : Str) : Str → Str
  | [] => []
  | c :: cs =>
    if pat.isPrefixOf (c :: cs) then rep ++ (c :: cs).drop pat.length
    else c :: replaceFirst pat rep cs

/-- The literal `'.pdf'`. -/
def dotPdf : Str := ['.', 'p', 'd', 'f']

/-- The literal `'Error'` (sentinel date on metadata failure). -/
def strError : Str := ['E', 'r', 'r', 'o', 'r']

/-- The literal `'0 MB'` (sentinel size). -/
def str0MB : Str := ['0', ' ', 'M', 'B']

/-- Result of `FileSystem.getInfoAsync` (the fields `loadLibrary` reads).
`modificationTime = 0` models the JS-falsy case triggering the `Date.now()/1000` fallback. -/
structure FileInfo where
  fileExists : Bool
  size : Nat
  modificationTime : Int
deriving DecidableEq

/-- The ambient environment of `loadLibrary`: the metadata oracle
(`FileSystem.getInfoAsync`, `none` = the call threw), the locale formatting
functions, the current time (`Date.now()/1000`) and `FileSystem.documentDirectory`. -/
structure FsEnv where
  getInfo : Str → Option FileInfo
  fmtSize : Nat → Str
  fmtDate : Int → Str
  now : Int
  docDir : Str

/-- `interface PdfDoc` from `index.tsx`. -/
structure PdfDoc where
  id : Str
  name : Str
  date : Str
  size : Str
  uri : Str
  timestamp : Int
deriving DecidableEq

/-- The `size` local of `loadLibrary`'s per-file mapper: formatted size when
the file exists, the `'0 MB'` sentinel otherwise. -/
def sizeStrOf (env : FsEnv) (info : FileInfo) : Str :=
  if info.fileExists then env.fmtSize info.size else str0MB

/-- The `timestamp` local of `loadLibrary`'s per-file mapper:
`info.modificationTime || Date.now() / 1000` when the file exists, `0`
otherwise (`0` is the JS-falsy modification time). -/
def tsOf (env : FsEnv) (info : FileInfo) : Int :=
  if info.fileExists then
    (if info.modificationTime = 0 then env.now else info.modificationTime)
  else 0

/-- The per-file mapper inside `loadLibrary` (`index.tsx` lines 111–132):
builds one `PdfDoc` from a file name, with the `catch` branch producing the
sentinel entry (`date: 'Error'`, `size: '0 MB'`, `timestamp: 0`). -/
def docOf (env : FsEnv) (fileName : Str) : PdfDoc :=
  match env.getInfo (env.docDir ++ fileName) with
  | some info =>
      { id := fileName, name := fileName,
        date := env.fmtDate (tsOf env info * 1000),
        size := sizeStrOf env info, uri := env.docDir ++ fileName,
        timestamp := tsOf env info }
  | none =>
      { id := fileName, name := fileName, date := strError, size := str0MB,
        uri := env.docDir ++ fileName, timestamp := 0 }

/-- `files.filter(file => file.toLowerCase().endsWith('.pdf'))`. -/
def pdfFilesOf (files : List Str) : List Str :=
  files.filter (fun f => endsWithB (toLowerStr f) dotPdf)

/-- The sort comparator `(a, b) => b.timestamp - a.timestamp`: `a` precedes `b`
exactly when `b.timestamp ≤ a.timestamp` (modification time descending). -/
def byTimestampDesc (a b : PdfDoc) : Bool := decide (b.timestamp ≤ a.timestamp)

/-- `loadLibrary` (`index.tsx` lines 101–144), as a function of the directory
contents: filter to `.pdf` entries, derive a `PdfDoc` per entry, sort by
modification time descending (JS `Array.prototype.sort` is a stable sort;
modelled by `List.mergeSort`). -/
def loadLibrary (env : FsEnv) (files : List Str) : List PdfDoc :=
  ((pdfFilesOf files).map (docOf env)).mergeSort byTimestampDesc

/-- `applyFilter` (`index.tsx` lines 146–152): the empty (JS-falsy) query
returns the data unchanged; otherwise keep the documents whose lowercased
name contains the lowercased query. -/
def applyFilter (query : Str) (data : List PdfDoc) : List PdfDoc :=
  if query = [] then data
  else data.filter (fun p => includesB (toLowerStr p.name) (toLowerStr query))

/-! ## Draft session (`selectedImages`, `showDraftModal`) -/

/-- `selectedImages.filter((_, i) => i !== index)`: JS `Array.prototype.filter`
with its index argument, the counter starting at `i`. -/
def filterIdxNe (target : Nat) : List Str → Nat → List Str
  | [], _ => []
  | a :: as, i =>
    if i = target then filterIdxNe target as (i + 1)
    else a :: filterIdxNe target as (i + 1)

/-- The draft-session state touched by `removeImage`. -/
structure DraftState where
  selectedImages : List Str
  showDraftModal : Bool
deriving DecidableEq

/-- `removeImage` (`index.tsx` lines 239–244): drop the entry at `index`; if the
result is empty, close the draft modal (`setShowDraftModal(false)`). -/
def removeImage (s : DraftState) (index : Nat) : DraftState :=
  let newImages := filterIdxNe index s.selectedImages 0
  { selectedImages := newImages,
    showDraftModal := if newImages.length = 0 then false else s.showDraftModal }

/-- `swapImages` (`index.tsx` lines 246–252): no-op when the indices coincide or
either is out of `[0, length)`; otherwise exchange the two entries
(`[a[i], a[j]] = [a[j], a[i]]`). Indices are JS numbers, modelled as `Int`. -/
def swapImages (l : List Str) (fromIdx toIdx : Int) : List Str :=
  if fromIdx = toIdx ∨ fromIdx < 0 ∨ toIdx < 0 ∨
      (l.length : Int) ≤ fromIdx ∨ (l.length : Int) ≤ toIdx then l
  else
    match l[fromIdx.toNat]?, l[toIdx.toNat]? with
    | some a, some b => (l.set fromIdx.toNat b).set toIdx.toNat a
    | _, _ => l

/-! ## Reorder resolver (`DraggableItem`'s `dragGesture.onEnd`) -/

/-- `GAP` from `index.tsx`. -/
def gapQ : ℚ := 12

/-- `ITEM_WIDTH = (SCREEN_WIDTH - GRID_PADDING*2 - GAP) / 2` from `index.tsx`,
as a function of the device screen width. -/
def itemWidthOf (screenWidth : ℚ) : ℚ := (screenWidth - 16 * 2 - 12) / 2

/-- The target-index computation of `dragGesture.onEnd` (`index.tsx` lines
334–338): quantize the displacement into column/row shifts (`Math.round`, which
is `⌊x + 1/2⌋`, matching Mathlib's `round`), form the linear shift
`colShift + rowShift * 2`, and clamp into `[0, total - 1]`.
Pixel quantities are idealized as rationals. -/
def dragEndTarget (screenWidth dx dy : ℚ) (index total : Int) : Int :=
  let itemW := itemWidthOf screenWidth
  let colShift := round (dx / (itemW + gapQ))
  let rowShift := round (dy / (itemW * (5 / 4 : ℚ) + gapQ))
  let indexShift := colShift + rowShift * 2
  max 0 (min (total - 1) (index + indexShift))

/-- The effect of `dragGesture.onEnd` on the draft (`index.tsx` lines 340–342):
call `swapImages` exactly when the clamped target differs from the source. -/
def dragEnd (screenWidth dx dy : ℚ) (index total : Int) (l : List Str) : List Str :=
  if dragEndTarget screenWidth dx dy index total ≠ index then
    swapImages l index (dragEndTarget screenWidth dx dy index total)
  else l

/-- The reorder resolver as the specification words it (§4.3): column shift
`round(dx / (cellWidth + gap))`, row shift `round(dy / (cellHeight + gap))`,
linear shift `columnShift + rowShift × columnsPerRow`, target clamped into
`[0, total − 1]`. Stated from the spec to be compared with `dragEndTarget`. -/
def resolverSpecTarget (cellW cellH gap : ℚ) (cols : Int) (dx dy : ℚ)
    (index total : Int) : Int :=
  let columnShift := round (dx / (cellW + gap))
  let rowShift := round (dy / (cellH + gap))
  let shift := columnShift + rowShift * cols
  max 0 (min (total - 1) (index + shift))

/-! ## PDF generation: name sanitizing, page assembly, state transition -/

/-- The character class `[a-z0-9_\-]` under the `/i` flag: the characters the
sanitizer in `generatePdf` keeps. -/
def isAllowedChar (c : Char) : Bool :=
  decide (('a' ≤ c ∧ c ≤ 'z') ∨ ('A' ≤ c ∧ c ≤ 'Z') ∨ ('0' ≤ c ∧ c ≤ '9') ∨
    c = '_' ∨ c = '-')

/-- `pdfName.replace(/[^a-z0-9_\-]/gi, '_')`: every character outside the class
is replaced by `'_'`. -/
def sanitizeName (s : Str) : Str :=
  s.map (fun c => if isAllowedChar c then c else '_')

/-- The literal `'Doc'` (fallback name). -/
def strDoc : Str := ['D', 'o', 'c']

/-- `finalName` from `generatePdf` (`index.tsx` lines 278–279):
`` `${pdfName.replace(/[^a-z0-9_\-]/gi, '_') || 'Doc'}.pdf` `` — the JS `||`
falls back to `'Doc'` exactly when the sanitized name is the empty string. -/
def finalNameOf (pdfName : Str) : Str :=
  let cleanName := if sanitizeName pdfName = [] then strDoc else sanitizeName pdfName
  cleanName ++ dotPdf

/-- The literal `'data:image/jpeg;base64,'` prepended to each encoded image. -/
def dataUrlHead : Str := "data:image/jpeg;base64,".toList

/-- One write step of the `Promise.all` model: the completing task `j` stores
its result into slot `j`; earlier writes to other slots are kept. -/
def writeSlots (f : Nat → Str) : List Nat → (Nat → Option Str) → (Nat → Option Str)
  | [], slots => slots
  | j :: rest, slots =>
      writeSlots f rest (fun k => if k = j then some (f j) else slots k)

/-- `Promise.all` over the tasks `0 .. n-1`: the tasks complete in the order
given by `sched`, each writing its own slot; the resolved value reads the slots
out in index order. -/
def promiseAll (f : Nat → Str) (n : Nat) (sched : List Nat) : List (Option Str) :=
  (List.range n).map (writeSlots f sched (fun _ => none))

/-- The per-image encode task of `generatePdf` (`index.tsx` lines 259–262):
read the image as base64 (`encode` is the read oracle) and build the data URL. -/
def encodeTask (encode : Str → Str) (images : List Str) (i : Nat) : Str :=
  dataUrlHead ++ encode (images.getD i [])

/-- `base64Images`: the value `Promise.all` resolves to in `generatePdf`, under
completion schedule `sched` (slot `i` holds the data URL of image `i`). -/
def base64ImagesSched (encode : Str → Str) (images : List Str) (sched : List Nat) :
    List (Option Str) :=
  promiseAll (encodeTask encode images) images.length sched

/-- The collected array as used after `await`: each slot read out. -/
def collectAll (encode : Str → Str) (images : List Str) (sched : List Nat) : List Str :=
  (base64ImagesSched encode images sched).map (fun o => o.getD [])

/-- The opening text of one `.page` div of `htmlContent`. -/
def pageDivOpen : Str := "<div class=\"page\"><img src=\"".toList

/-- The closing text of one `.page` div of `htmlContent`. -/
def pageDivClose : Str := "\" /></div>".toList

/-- One page fragment of `htmlContent` (`index.tsx` line 272). -/
def pageOf (b : Str) : Str := pageDivOpen ++ b ++ pageDivClose

/-- The page fragments of `htmlContent`, in document order:
`base64Images.map(base64 => ...)`. -/
def htmlPages (base64Images : List Str) : List Str := base64Images.map pageOf

/-- The document produced by the render service
(`Print.printToFileAsync`): one page per `.page` div of the input. -/
structure RenderedPdf where
  pages : List Str
deriving DecidableEq

/-- Model of the render service: the output document's pages are exactly the
`.page` fragments of the submitted HTML, in order. -/
def renderService (pages : List Str) : RenderedPdf := ⟨pages⟩

/-! ## File system and the rename coordinator -/

/-- The file system: a map from path to an abstract content identifier. -/
abbrev FS := Str → Option Nat

/-- Write (or overwrite) one file. -/
def fsInsert (fs : FS) (name : Str) (content : Nat) : FS :=
  fun u => if u = name then some content else fs u

/-- Remove one file. -/
def fsRemove (fs : FS) (name : Str) : FS :=
  fun u => if u = name then none else fs u

/-- `FileSystem.copyAsync({from, to})`: throws (`none`) when the source is
missing; overwrites an existing destination. -/
def copyAsync (fs : FS) (srcUri dstUri : Str) : Option FS :=
  match fs srcUri with
  | none => none
  | some c => some (fsInsert fs dstUri c)

/-- `FileSystem.deleteAsync(uri)` (default options): throws (`none`) when the
file is missing. -/
def deleteAsync (fs : FS) (uri : Str) : Option FS :=
  match fs uri with
  | none => none
  | some _ => some (fsRemove fs uri)

/-- How a rename attempt ends: silently rejected (early `return`), the
`NameConflict` alert (`'A file with this name already exists.'`), the generic
failure alert from the `catch`, or success. -/
inductive RenameOutcome
  | success
  | rejected
  | nameConflict
  | failed
deriving DecidableEq

/-- The document being renamed (the fields the rename paths read). -/
structure RenameItem where
  uri : Str
  name : Str
deriving DecidableEq

/-- `confirmRename` (`index.tsx` lines 174–190): early-return when there is no
item or the trimmed new name is empty; otherwise copy to
`` `${docDir}${newName.trim() + '.pdf'}` `` and delete the original — with no
check whether the destination already exists. -/
def confirmRename (fs : FS) (renamingItem : Option RenameItem) (newFileName : Str)
    (docDir : Str) : FS × RenameOutcome :=
  match renamingItem with
  | none => (fs, .rejected)
  | some item =>
    if trimStr newFileName = [] then (fs, .rejected)
    else
      match copyAsync fs item.uri (docDir ++ (trimStr newFileName ++ dotPdf)) with
      | none => (fs, .failed)
      | some fs1 =>
        match deleteAsync fs1 item.uri with
        | none => (fs1, .failed)
        | some fs2 => (fs2, .success)

/-- `saveRename` (`src/unnamed/part_001` lines 254–282): early-return when the
trimmed value is empty or equals the current name with `'.pdf'` removed;
reject with the name-conflict alert when `getInfoAsync` reports the target
exists; otherwise copy then delete the original. -/
def saveRename (fs : FS) (item : RenameItem) (editingValue : Str) (docDir : Str) :
    FS × RenameOutcome :=
  if trimStr editingValue = [] ∨ trimStr editingValue = replaceFirst dotPdf [] item.name then
    (fs, .rejected)
  else
    match fs (docDir ++ (trimStr editingValue ++ dotPdf)) with
    | some _ => (fs, .nameConflict)
    | none =>
      match copyAsync fs item.uri (docDir ++ (trimStr editingValue ++ dotPdf)) with
      | none => (fs, .failed)
      | some fs1 =>
        match deleteAsync fs1 item.uri with
        | none => (fs1, .failed)
        | some fs2 => (fs2, .success)

/-! ## The creation state machine (`generatePdf` as a state transition) -/

/-- The screen state `generatePdf` touches. `showDraftModal = true` with a
nonempty draft is the `Reviewing` state; `isProcessing` marks `Converting`;
`showDraftModal = false` with an empty draft is `Idle`. -/
structure AppState where
  fs : FS
  selectedImages : List Str
  showDraftModal : Bool
  isProcessing : Bool
  pdfName : Str
  alertMsg : Option Str

/-- `generatePdf` (`index.tsx` lines 254–291) as a transition. The fallible
external work of the `try` block (the batched base64 reads and
`Print.printToFileAsync`) is summarized by `outcome`: an error message, or the
content of the rendered temp file. On success the rendered file is copied to
`` `${docDir}${finalName}` ``, the modal closes and the draft is cleared; on
failure the `catch` shows the message and the draft and modal are untouched;
the `finally` clears `isProcessing` on both paths. -/
def generatePdf (st : AppState) (docDir : Str) (outcome : Except Str Nat) : AppState :=
  if st.selectedImages = [] then st
  else
    match outcome with
    | .error msg => { st with alertMsg := some msg, isProcessing := false }
    | .ok pdf =>
        { st with
            fs := fsInsert st.fs (docDir ++ finalNameOf st.pdfName) pdf,
            showDraftModal := false,
            selectedImages := [],
            isProcessing := false }

/-! ## Concrete inputs used by witnesses and counterexamples -/

/-- The file name `'Doc1.pdf'`. -/
def wDoc1 : Str := "Doc1.pdf".toList

/-- The file name `'Doc2.pdf'`. -/
def wDoc2Pdf : Str := "Doc2.pdf".toList

/-- The rename input `'Doc2'`. -/
def wDoc2 : Str := "Doc2".toList

/-- A file system holding `Doc1.pdf` (content 1) and `Doc2.pdf` (content 2). -/
def wFs0 : FS := fun u => if u = wDoc1 then some 1 else if u = wDoc2Pdf then some 2 else none

/-- The library row for `Doc1.pdf` (with `documentDirectory` modelled as `[]`,
so a file's uri is its name). -/
def wItem1 : RenameItem := ⟨wDoc1, wDoc1⟩

/-- A concrete directory listing: two pdf files (one with uppercase extension)
and one non-pdf file. -/
def wFiles : List Str := ["a.pdf".toList, "b.PDF".toList, "c.txt".toList]

/-- A concrete environment for the library: metadata reads throw for
`/doc/a.pdf` and succeed with fixed metadata elsewhere. -/
def wEnv : FsEnv where
  getInfo := fun u => if u = "/doc/a.pdf".toList then none else some ⟨true, 5, 10⟩
  fmtSize := fun _ => []
  fmtDate := fun _ => []
  now := 100
  docDir := "/doc/".toList

/-- A concrete app state sitting in `Reviewing`: a two-image draft, modal open. -/
def wAppState : AppState where
  fs := wFs0
  selectedImages := ["img1".toList, "img2".toList]
  showDraftModal := true
  isProcessing := true
  pdfName := "My Doc".toList
  alertMsg := none

/-! ## Helper lemmas -/

/-- The empty string is a substring of every string. -/
theorem includesB_nil (s : Str) : includesB s [] = true := by
  simp [includesB]

/-- `toLowerStr` of the empty string. -/
theorem toLowerStr_nil : toLowerStr [] = [] := rfl

/-! ## Claim theorems -/

/-- C4: for every query `q` and document sequence `S`, `applyFilter q S` is a
subsequence of `S` containing exactly the documents whose display name contains
`q` case-insensitively (both sides lowercased, as the code does), and the empty
query returns `S` unchanged. -/
theorem applyFilter_spec (q : Str) (S : List PdfDoc) :
    (applyFilter q S).Sublist S ∧
    applyFilter [] S = S ∧
    (∀ p, p ∈ applyFilter q S ↔
      p ∈ S ∧ includesB (toLowerStr p.name) (toLowerStr q) = true) := by
  refine ⟨?_, by simp [applyFilter], ?_⟩
  · unfold applyFilter
    split
    · exact List.Sublist.refl S
    · exact List.filter_sublist S
  · intro p
    unfold applyFilter
    split
    · rename_i hq
      subst hq
      simp [toLowerStr_nil, includesB_nil]
    · simp [List.mem_filter]

/-- Witness for `applyFilter_spec` at a concrete query and document list. -/
theorem applyFilter_spec_witness :
    (applyFilter ['a'] []).Sublist [] ∧
    applyFilter [] ([] : List PdfDoc) = [] ∧
    (∀ p, p ∈ applyFilter ['a'] [] ↔
      p ∈ ([] : List PdfDoc) ∧ includesB (toLowerStr p.name) (toLowerStr ['a']) = true) :=
  applyFilter_spec ['a'] []

/-- C2: for every directory contents `files`, `loadLibrary` returns exactly the
entries whose names end in `.pdf` case-insensitively (it is a permutation of
their mapped rows, with membership characterized accordingly), the result is
sorted by modification time descending, and — `loadLibrary` being a pure
function of the directory contents — a second call on unchanged contents yields
the same sequence. -/
theorem loadLibrary_spec (env : FsEnv) (files : List Str) :
    (loadLibrary env files).Perm ((pdfFilesOf files).map (docOf env)) ∧
    (∀ d, d ∈ loadLibrary env files ↔
      ∃ f, f ∈ files ∧ endsWithB (toLowerStr f) dotPdf = true ∧ d = docOf env f) ∧
    List.Pairwise (fun a b => b.timestamp ≤ a.timestamp) (loadLibrary env files) ∧
    loadLibrary env files = loadLibrary env files := by
  have hperm : (loadLibrary env files).Perm ((pdfFilesOf files).map (docOf env)) :=
    List.mergeSort_perm _ _
  refine ⟨hperm, ?_, ?_, rfl⟩
  · intro d
    rw [hperm.mem_iff]
    simp only [List.mem_map, pdfFilesOf, List.mem_filter]
    constructor
    · rintro ⟨f, ⟨hf, hpdf⟩, rfl⟩
      exact ⟨f, hf, hpdf, rfl⟩
    · rintro ⟨f, hf, hpdf, rfl⟩
      exact ⟨f, ⟨hf, hpdf⟩, rfl⟩
  · have h := @List.sorted_mergeSort PdfDoc byTimestampDesc
      (fun a b c hab hbc => by
        simp only [byTimestampDesc, decide_eq_true_eq] at *
        omega)
      (fun a b => by
        simp only [byTimestampDesc, Bool.or_eq_true, decide_eq_true_eq]
        omega)
      ((pdfFilesOf files).map (docOf env))
    exact h.imp (fun hab => by
      simpa [byTimestampDesc, decide_eq_true_eq] using hab)

/-- Witness for `loadLibrary_spec` at a concrete environment and listing. -/
theorem loadLibrary_spec_witness :
    (loadLibrary wEnv wFiles).Perm ((pdfFilesOf wFiles).map (docOf wEnv)) ∧
    (∀ d, d ∈ loadLibrary wEnv wFiles ↔
      ∃ f, f ∈ wFiles ∧ endsWithB (toLowerStr f) dotPdf = true ∧ d = docOf wEnv f) ∧
    List.Pairwise (fun a b => b.timestamp ≤ a.timestamp) (loadLibrary wEnv wFiles) ∧
    loadLibrary wEnv wFiles = loadLibrary wEnv wFiles :=
  loadLibrary_spec wEnv wFiles

/-- C3: a metadata read failure for one file does not abort the refresh: the
failing file's entry is still present, with the sentinel values
(`date = 'Error'`, `size = '0 MB'`); the result still has one entry per `.pdf`
file; and every other entry is unaffected — it only depends on the metadata of
its own file, so any environment agreeing outside the failing uri produces the
same row for every other file. -/
theorem loadLibrary_partial_failure (env : FsEnv) (files : List Str) (f : Str)
    (hmem : f ∈ pdfFilesOf files) (hfail : env.getInfo (env.docDir ++ f) = none) :
    ({ id := f, name := f, date := strError, size := str0MB,
       uri := env.docDir ++ f, timestamp := 0 } : PdfDoc) ∈ loadLibrary env files ∧
    (loadLibrary env files).length = (pdfFilesOf files).length ∧
    (∀ env2 : FsEnv, env2.docDir = env.docDir → env2.fmtSize = env.fmtSize →
      env2.fmtDate = env.fmtDate → env2.now = env.now →
      (∀ u, u ≠ env.docDir ++ f → env2.getInfo u = env.getInfo u) →
      ∀ g, g ∈ pdfFilesOf files → g ≠ f → docOf env2 g = docOf env g) := by
  have hperm : (loadLibrary env files).Perm ((pdfFilesOf files).map (docOf env)) :=
    List.mergeSort_perm _ _
  refine ⟨?_, ?_, ?_⟩
  · rw [hperm.mem_iff]
    have : docOf env f =
        { id := f, name := f, date := strError, size := str0MB,
          uri := env.docDir ++ f, timestamp := 0 } := by
      unfold docOf
      rw [hfail]
    rw [← this]
    exact List.mem_map_of_mem _ hmem
  · rw [hperm.length_eq, List.length_map]
  · intro env2 hdir hsize hdate hnow hagree g _hg hgf
    have hne : env.docDir ++ g ≠ env.docDir ++ f := by
      intro h
      exact hgf (List.append_cancel_left h)
    unfold docOf
    rw [hdir, hagree _ hne]
    cases env.getInfo (env.docDir ++ g) with
    | none => rfl
    | some info =>
        simp only [PdfDoc.mk.injEq, sizeStrOf, tsOf, hdir, hsize, hdate, hnow]

/-- Witness for `loadLibrary_partial_failure`: in `wEnv` the metadata read for
`/doc/a.pdf` throws, yet the refresh of `wFiles` keeps its sentinel entry. -/
theorem loadLibrary_partial_failure_witness :
    ("a.pdf".toList ∈ pdfFilesOf wFiles ∧
      wEnv.getInfo (wEnv.docDir ++ "a.pdf".toList) = none) ∧
    ({ id := "a.pdf".toList, name := "a.pdf".toList, date := strError, size := str0MB,
       uri := wEnv.docDir ++ "a.pdf".toList, timestamp := 0 } : PdfDoc) ∈
        loadLibrary wEnv wFiles :=
  ⟨⟨by decide, rfl⟩,
    (loadLibrary_partial_failure wEnv wFiles ("a.pdf".toList) (by decide) rfl).1⟩

/-- `filterIdxNe` with counter `i` keeps everything when the target is below
the counter, and otherwise erases the entry `target - i` positions in. -/
theorem filterIdxNe_eq (t : Nat) (l : List Str) (i : Nat) :
    filterIdxNe t l i =
      if t < i then l else l.take (t - i) ++ l.drop (t - i + 1) := by
  induction l generalizing i with
  | nil => simp [filterIdxNe]
  | cons a as ih =>
    unfold filterIdxNe
    by_cases hit : i = t
    · subst hit
      rw [if_pos rfl, ih (i + 1), if_pos (Nat.lt_succ_self i)]
      simp
    · rw [if_neg hit, ih (i + 1)]
      by_cases hlt : t < i
      · rw [if_pos (by omega), if_pos hlt]
      · rw [if_neg (by omega), if_neg hlt]
        obtain ⟨m, hm⟩ : ∃ m, t - i = m + 1 := ⟨t - i - 1, by omega⟩
        have h1 : t - (i + 1) = m := by omega
        rw [hm, h1]
        simp

/-- C6: `removeImage` deletes exactly the entry at the given (in-range) index —
the result is the prefix before it followed by the suffix after it, one entry
shorter — and closes the draft modal exactly when the result is empty; on a
single-element draft it empties the draft and closes the session. -/
theorem removeImage_spec :
    (∀ (s : DraftState) (index : Nat), index < s.selectedImages.length →
      (removeImage s index).selectedImages =
        s.selectedImages.take index ++ s.selectedImages.drop (index + 1) ∧
      (removeImage s index).selectedImages.length + 1 = s.selectedImages.length ∧
      ((removeImage s index).selectedImages = [] →
        (removeImage s index).showDraftModal = false) ∧
      ((removeImage s index).selectedImages ≠ [] →
        (removeImage s index).showDraftModal = s.showDraftModal)) ∧
    (∀ (a : Str) (m : Bool), removeImage ⟨[a], m⟩ 0 = ⟨[], false⟩) := by
  constructor
  · intro s index hlt
    have himg : (removeImage s index).selectedImages =
        s.selectedImages.take index ++ s.selectedImages.drop (index + 1) := by
      show filterIdxNe index s.selectedImages 0 = _
      rw [filterIdxNe_eq, if_neg (by omega)]
      simp
    refine ⟨himg, ?_, ?_, ?_⟩
    · rw [himg]
      simp only [List.length_append, List.length_take, List.length_drop]
      omega
    · intro hnil
      show (if (filterIdxNe index s.selectedImages 0).length = 0 then false
            else s.showDraftModal) = false
      have : filterIdxNe index s.selectedImages 0 = [] := hnil
      rw [this]
      rfl
    · intro hnil
      show (if (filterIdxNe index s.selectedImages 0).length = 0 then false
            else s.showDraftModal) = s.showDraftModal
      rw [if_neg (by
        intro hz
        exact hnil (List.eq_nil_of_length_eq_zero hz))]
  · intro a m
    rfl

/-- Witness for `removeImage_spec`: removing index 1 of a two-image draft. -/
theorem removeImage_spec_witness :
    (1 < (["u".toList, "v".toList] : List Str).length ∧
      (removeImage ⟨["u".toList, "v".toList], true⟩ 1).selectedImages =
        (["u".toList, "v".toList] : List Str).take 1 ++
          (["u".toList, "v".toList] : List Str).drop 2) ∧
    removeImage ⟨["w".toList], true⟩ 0 = ⟨[], false⟩ :=
  ⟨⟨by decide, (removeImage_spec.1 ⟨["u".toList, "v".toList], true⟩ 1 (by decide)).1⟩,
    removeImage_spec.2 ("w".toList) true⟩

/-- C5: `swapImages` is a no-op when the indices coincide or either lies
outside `[0, n)`; for distinct in-range indices it exchanges exactly the two
addressed entries (all other positions unchanged) and is an involution; and on
a three-element draft `[A, B, C]`, swapping 0 and 2 yields `[C, B, A]`. -/
theorem swapImages_spec :
    (∀ (l : List Str) (i j : Int),
      (i = j ∨ i < 0 ∨ j < 0 ∨ (l.length : Int) ≤ i ∨ (l.length : Int) ≤ j) →
      swapImages l i j = l) ∧
    (∀ (l : List Str) (i j : Int),
      i ≠ j → 0 ≤ i → 0 ≤ j → i < (l.length : Int) → j < (l.length : Int) →
      ((swapImages l i j)[i.toNat]? = l[j.toNat]? ∧
       (swapImages l i j)[j.toNat]? = l[i.toNat]? ∧
       (∀ k : Nat, k ≠ i.toNat → k ≠ j.toNat → (swapImages l i j)[k]? = l[k]?) ∧
       swapImages (swapImages l i j) i j = l)) ∧
    (∀ A B C : Str, swapImages [A, B, C] 0 2 = [C, B, A]) := by
  have hcore : ∀ (l : List Str) (i j : Int),
      i ≠ j → 0 ≤ i → 0 ≤ j → i < (l.length : Int) → j < (l.length : Int) →
      ∀ (hi : i.toNat < l.length) (hj : j.toNat < l.length),
      swapImages l i j = (l.set i.toNat l[j.toNat]).set j.toNat l[i.toNat] := by
    intro l i j hne h0i h0j hil hjl hi hj
    unfold swapImages
    rw [if_neg (by omega)]
    rw [List.getElem?_eq_getElem hi, List.getElem?_eq_getElem hj]
  refine ⟨?_, ?_, ?_⟩
  · intro l i j h
    unfold swapImages
    rw [if_pos h]
  · intro l i j hne h0i h0j hil hjl
    have hi : i.toNat < l.length := by omega
    have hj : j.toNat < l.length := by omega
    have hij : i.toNat ≠ j.toNat := by omega
    have heq := hcore l i j hne h0i h0j hil hjl hi hj
    have hgi : (swapImages l i j)[i.toNat]? = l[j.toNat]? := by
      rw [heq, List.getElem?_set_ne (Ne.symm hij), List.getElem?_set_self hi,
        List.getElem?_eq_getElem hj]
    have hgj : (swapImages l i j)[j.toNat]? = l[i.toNat]? := by
      rw [heq, List.getElem?_set_self (by simpa using hj),
        List.getElem?_eq_getElem hi]
    have hother : ∀ k : Nat, k ≠ i.toNat → k ≠ j.toNat →
        (swapImages l i j)[k]? = l[k]? := by
      intro k hki hkj
      rw [heq, List.getElem?_set_ne (Ne.symm hkj), List.getElem?_set_ne (Ne.symm hki)]
    refine ⟨hgi, hgj, hother, ?_⟩
    have hlen : (swapImages l i j).length = l.length := by
      rw [heq]
      simp
    have hil2 : i < ((swapImages l i j).length : Int) := by rw [hlen]; exact hil
    have hjl2 : j < ((swapImages l i j).length : Int) := by rw [hlen]; exact hjl
    have hi2 : i.toNat < (swapImages l i j).length := by omega
    have hj2 : j.toNat < (swapImages l i j).length := by omega
    have heq2 := hcore (swapImages l i j) i j hne h0i h0j hil2 hjl2 hi2 hj2
    have ei : (swapImages l i j)[i.toNat] = l[j.toNat] := by
      have h := hgi
      rw [List.getElem?_eq_getElem hi2, List.getElem?_eq_getElem hj] at h
      exact Option.some.inj h
    have ej : (swapImages l i j)[j.toNat] = l[i.toNat] := by
      have h := hgj
      rw [List.getElem?_eq_getElem hj2, List.getElem?_eq_getElem hi] at h
      exact Option.some.inj h
    rw [heq2, ei, ej, heq]
    apply List.ext_getElem?
    intro n
    by_cases hnj : n = j.toNat
    · subst hnj
      rw [List.getElem?_set_self (by simp; omega), List.getElem?_eq_getElem hj]
    · by_cases hni : n = i.toNat
      · subst hni
        rw [List.getElem?_set_ne (by omega), List.getElem?_set_self (by simp; omega),
          List.getElem?_eq_getElem hi]
      · rw [List.getElem?_set_ne (by omega), List.getElem?_set_ne (by omega),
          List.getElem?_set_ne (by omega), List.getElem?_set_ne (by omega)]
  · intro A B C
    rfl

/-- Witness for `swapImages_spec`: the guard cases and the exchange on a
concrete three-element draft. -/
theorem swapImages_spec_witness :
    swapImages ["x".toList, "y".toList] 0 5 = ["x".toList, "y".toList] ∧
    swapImages (swapImages ["x".toList, "y".toList, "z".toList] 0 2) 0 2 =
      ["x".toList, "y".toList, "z".toList] ∧
    swapImages ["x".toList, "y".toList, "z".toList] 0 2 =
      ["z".toList, "y".toList, "x".toList] :=
  ⟨swapImages_spec.1 ["x".toList, "y".toList] 0 5 (by decide),
    (swapImages_spec.2.1 ["x".toList, "y".toList, "z".toList] 0 2 (by omega)
      (by omega) (by omega) (by decide) (by decide)).2.2.2,
    swapImages_spec.2.2 ("x".toList) ("y".toList) ("z".toList)⟩

/-- C7: the reorder resolver computes its target exactly as the specification
describes — column shift `round(dx / (cellWidth + gap))`, row shift
`round(dy / (cellHeight + gap))` (here cellHeight is `ITEM_WIDTH * 1.25`),
linear shift `columnShift + rowShift × 2`, target clamped into
`[0, total − 1]` — and `dragEnd` invokes the draft's swap exactly when the
clamped target differs from the dragged index. -/
theorem dragEnd_resolver_spec (screenWidth dx dy : ℚ) (index total : Int)
    (l : List Str) (htotal : 1 ≤ total) :
    dragEndTarget screenWidth dx dy index total =
      resolverSpecTarget (itemWidthOf screenWidth)
        (itemWidthOf screenWidth * (5 / 4 : ℚ)) gapQ 2 dx dy index total ∧
    0 ≤ dragEndTarget screenWidth dx dy index total ∧
    dragEndTarget screenWidth dx dy index total ≤ total - 1 ∧
    (dragEndTarget screenWidth dx dy index total = index →
      dragEnd screenWidth dx dy index total l = l) ∧
    (dragEndTarget screenWidth dx dy index total ≠ index →
      dragEnd screenWidth dx dy index total l =
        swapImages l index (dragEndTarget screenWidth dx dy index total)) := by
  refine ⟨rfl, le_max_left _ _, ?_, ?_, ?_⟩
  · exact max_le (by omega) (min_le_left _ _)
  · intro h
    unfold dragEnd
    rw [if_neg (fun hne => hne h)]
  · intro h
    unfold dragEnd
    rw [if_pos h]

/-- Witness for `dragEnd_resolver_spec` at a 212-pixel-wide screen
(`ITEM_WIDTH = 84`), a rightward drag of 100 pixels, dragged index 0 of 3. -/
theorem dragEnd_resolver_spec_witness :
    (1 : Int) ≤ 3 ∧
    (dragEndTarget 212 100 0 0 3 =
      resolverSpecTarget (itemWidthOf 212) (itemWidthOf 212 * (5 / 4 : ℚ))
        gapQ 2 100 0 0 3 ∧
    0 ≤ dragEndTarget 212 100 0 0 3 ∧
    dragEndTarget 212 100 0 0 3 ≤ 3 - 1 ∧
    (dragEndTarget 212 100 0 0 3 = 0 → dragEnd 212 100 0 0 3 [] = []) ∧
    (dragEndTarget 212 100 0 0 3 ≠ 0 →
      dragEnd 212 100 0 0 3 [] = swapImages [] 0 (dragEndTarget 212 100 0 0 3))) :=
  ⟨by decide, dragEnd_resolver_spec 212 100 0 0 3 [] (by decide)⟩

/-- C10: for every draft name, the stored file name is the name with every
character outside `[a-zA-Z0-9_-]` replaced by `'_'` (a length-preserving map),
with the `'Doc'` fallback exactly when the sanitized name is empty, plus
`'.pdf'` — so the stem is always nonempty and made only of allowed characters,
matching `^[A-Za-z0-9_-]+\.pdf$`. -/
theorem finalNameOf_spec (s : Str) :
    ∃ stem : Str, finalNameOf s = stem ++ dotPdf ∧ stem ≠ [] ∧
      (∀ c ∈ stem, isAllowedChar c = true) ∧
      stem = (if s = [] then strDoc else sanitizeName s) ∧
      (sanitizeName s).length = s.length := by
  refine ⟨if sanitizeName s = [] then strDoc else sanitizeName s, rfl, ?_, ?_, ?_,
    by simp [sanitizeName]⟩
  · by_cases h : sanitizeName s = []
    · rw [if_pos h]
      decide
    · rw [if_neg h]
      exact h
  · intro c hc
    by_cases h : sanitizeName s = []
    · rw [if_pos h] at hc
      simp only [strDoc, List.mem_cons, List.not_mem_nil, or_false] at hc
      rcases hc with rfl | rfl | rfl <;> decide
    · rw [if_neg h] at hc
      simp only [sanitizeName, List.mem_map] at hc
      obtain ⟨d, _, rfl⟩ := hc
      by_cases hd : isAllowedChar d
      · rw [if_pos hd]
        exact hd
      · rw [if_neg hd]
        decide
  · by_cases h : s = []
    · subst h
      simp [sanitizeName]
    · have hs2 : sanitizeName s ≠ [] := by
        simp only [sanitizeName, ne_eq, List.map_eq_nil_iff]
        exact h
      rw [if_neg hs2, if_neg h]

/-- Witness for `finalNameOf_spec` at the concrete draft name `'My Doc!'`. -/
theorem finalNameOf_spec_witness :
    ∃ stem : Str, finalNameOf ("My Doc!".toList) = stem ++ dotPdf ∧ stem ≠ [] ∧
      (∀ c ∈ stem, isAllowedChar c = true) ∧
      stem = (if "My Doc!".toList = ([] : Str) then strDoc
              else sanitizeName ("My Doc!".toList)) ∧
      (sanitizeName ("My Doc!".toList)).length = ("My Doc!".toList).length :=
  finalNameOf_spec ("My Doc!".toList)

/-- Evaluating the slot map after all scheduled tasks have written: a slot
holds its own task's result exactly when that task appears in the schedule. -/
theorem writeSlots_apply (f : Nat → Str) (sched : List Nat)
    (slots : Nat → Option Str) (k : Nat) :
    writeSlots f sched slots k = if k ∈ sched then some (f k) else slots k := by
  induction sched generalizing slots with
  | nil => simp [writeSlots]
  | cons j rest ih =>
    unfold writeSlots
    rw [ih]
    by_cases hk : k ∈ rest
    · simp [hk]
    · by_cases hkj : k = j
      · subst hkj
        simp [hk]
      · simp [hk, hkj]

/-- A complete schedule fills every slot with its own task's result, in index
order, regardless of the completion order. -/
theorem promiseAll_complete (f : Nat → Str) (n : Nat) (sched : List Nat)
    (hs : ∀ k, k < n → k ∈ sched) :
    promiseAll f n sched = (List.range n).map (fun k => some (f k)) := by
  unfold promiseAll
  apply List.map_congr_left
  intro k hk
  rw [writeSlots_apply, if_pos (hs k (List.mem_range.mp hk))]

/-- Mapping a position-indexed read over `range l.length` recovers a plain map
over `l`. -/
theorem map_getD_range (l : List Str) (f : Str → Str) :
    (List.range l.length).map (fun k => f (l.getD k [])) = l.map f := by
  induction l with
  | nil => rfl
  | cons a as ih =>
    rw [List.length_cons, List.range_succ_eq_map, List.map_cons, List.map_map]
    simp only [Function.comp_def, List.getD_cons_zero, List.getD_cons_succ]
    rw [ih, List.map_cons]

/-- C8: converting a draft of `n` images produces one document with `n` pages
(one per image), and the page order equals the selection order regardless of
the completion order (`sched`) of the per-image encode reads — the collected
base64 array equals the in-order map of the selection for every complete
schedule. -/
theorem generatePdf_pages_spec (encode : Str → Str) (images : List Str)
    (sched : List Nat) (hs : ∀ k, k < images.length → k ∈ sched) :
    collectAll encode images sched =
      images.map (fun uri => dataUrlHead ++ encode uri) ∧
    (renderService (htmlPages (collectAll encode images sched))).pages.length =
      images.length ∧
    (∀ i, i < images.length →
      (renderService (htmlPages (collectAll encode images sched))).pages.getD i [] =
        pageOf (dataUrlHead ++ encode (images.getD i []))) := by
  have hbase : base64ImagesSched encode images sched =
      (List.range images.length).map (fun k => some (encodeTask encode images k)) :=
    promiseAll_complete _ _ _ hs
  have hcol : collectAll encode images sched =
      images.map (fun uri => dataUrlHead ++ encode uri) := by
    unfold collectAll
    rw [hbase, List.map_map]
    have hfun : ((fun o : Option Str => o.getD []) ∘
        fun k => some (encodeTask encode images k)) =
        fun k => dataUrlHead ++ encode (images.getD k []) := by
      funext k
      rfl
    rw [hfun]
    exact map_getD_range images (fun uri => dataUrlHead ++ encode uri)
  refine ⟨hcol, ?_, ?_⟩
  · unfold renderService htmlPages
    rw [hcol]
    simp
  · intro i hi
    unfold renderService htmlPages
    rw [hcol, List.map_map]
    simp only [Function.comp_def]
    rw [← map_getD_range images (fun uri => pageOf (dataUrlHead ++ encode uri))]
    have hlen : i < ((List.range images.length).map
        (fun k => pageOf (dataUrlHead ++ encode (images.getD k [])))).length := by
      simpa using hi
    rw [List.getD_eq_getElem _ _ hlen, List.getElem_map, List.getElem_range]

/-- Witness for `generatePdf_pages_spec`: three images whose encodes complete
in the order 2, 0, 1 still yield three pages in selection order. -/
theorem generatePdf_pages_spec_witness :
    (∀ k, k < (["p".toList, "q".toList, "r".toList] : List Str).length →
      k ∈ [2, 0, 1]) ∧
    collectAll (fun s => s) ["p".toList, "q".toList, "r".toList] [2, 0, 1] =
      (["p".toList, "q".toList, "r".toList] : List Str).map
        (fun uri => dataUrlHead ++ uri) :=
  ⟨by decide,
    (generatePdf_pages_spec (fun s => s) ["p".toList, "q".toList, "r".toList]
      [2, 0, 1] (by decide)).1⟩

/-- C9: when the conversion step fails, the state returns from `Converting` to
`Reviewing` — the error is surfaced, the draft's selected images are untouched
and the draft modal stays open, so retry needs no re-selection; on success the
draft is cleared, the modal closes (back to `Idle`), and exactly the one
output file is written. -/
theorem generatePdf_state_spec (st : AppState) (docDir msg : Str) (pdf : Nat)
    (hrev : st.showDraftModal = true) (hne : st.selectedImages ≠ []) :
    (generatePdf st docDir (.error msg)).selectedImages = st.selectedImages ∧
    (generatePdf st docDir (.error msg)).showDraftModal = true ∧
    (generatePdf st docDir (.error msg)).alertMsg = some msg ∧
    (generatePdf st docDir (.error msg)).isProcessing = false ∧
    (generatePdf st docDir (.error msg)).fs = st.fs ∧
    (generatePdf st docDir (.ok pdf)).selectedImages = [] ∧
    (generatePdf st docDir (.ok pdf)).showDraftModal = false ∧
    (generatePdf st docDir (.ok pdf)).isProcessing = false ∧
    (generatePdf st docDir (.ok pdf)).fs (docDir ++ finalNameOf st.pdfName) = some pdf ∧
    (∀ u, u ≠ docDir ++ finalNameOf st.pdfName →
      (generatePdf st docDir (.ok pdf)).fs u = st.fs u) := by
  have herr : generatePdf st docDir (.error msg) =
      { st with alertMsg := some msg, isProcessing := false } := by
    unfold generatePdf
    rw [if_neg hne]
  have hok : generatePdf st docDir (.ok pdf) =
      { st with
          fs := fsInsert st.fs (docDir ++ finalNameOf st.pdfName) pdf,
          showDraftModal := false,
          selectedImages := [],
          isProcessing := false } := by
    unfold generatePdf
    rw [if_neg hne]
  rw [herr, hok]
  refine ⟨rfl, hrev, rfl, rfl, rfl, rfl, rfl, rfl, ?_, ?_⟩
  · show fsInsert st.fs (docDir ++ finalNameOf st.pdfName) pdf
      (docDir ++ finalNameOf st.pdfName) = some pdf
    unfold fsInsert
    rw [if_pos rfl]
  · intro u hu
    show fsInsert st.fs (docDir ++ finalNameOf st.pdfName) pdf u = st.fs u
    unfold fsInsert
    rw [if_neg hu]

/-- Witness for `generatePdf_state_spec` at a concrete `Reviewing` state. -/
theorem generatePdf_state_spec_witness :
    (wAppState.showDraftModal = true ∧ wAppState.selectedImages ≠ []) ∧
    ((generatePdf wAppState [] (.error ("boom".toList))).selectedImages =
        wAppState.selectedImages ∧
      (generatePdf wAppState [] (.error ("boom".toList))).showDraftModal = true ∧
      (generatePdf wAppState [] (.ok 7)).selectedImages = [] ∧
      (generatePdf wAppState [] (.ok 7)).showDraftModal = false) :=
  ⟨⟨rfl, by decide⟩,
    (fun h => ⟨h.1, h.2.1, h.2.2.2.2.2.1, h.2.2.2.2.2.2.1⟩)
      (generatePdf_state_spec wAppState [] ("boom".toList) 7 rfl (by decide))⟩

/-- C1 counterexample: in `confirmRename` (the rename path of
`src/app/(tabs)/index.tsx`), renaming `Doc1.pdf` to `Doc2` while `Doc2.pdf`
already exists does not fail with a name conflict — the rename reports
success, the colliding file `Doc2.pdf` now holds `Doc1.pdf`'s content (it was
content 2 before), and `Doc1.pdf` is deleted. -/
theorem confirmRename_collision_counterexample :
    (confirmRename wFs0 (some wItem1) wDoc2 []).2 = RenameOutcome.success ∧
    (confirmRename wFs0 (some wItem1) wDoc2 []).2 ≠ RenameOutcome.nameConflict ∧
    wFs0 wDoc2Pdf = some 2 ∧
    (confirmRename wFs0 (some wItem1) wDoc2 []).1 wDoc2Pdf = some 1 ∧
    wFs0 wDoc1 = some 1 ∧
    (confirmRename wFs0 (some wItem1) wDoc2 []).1 wDoc1 = none :=
  ⟨rfl, by decide, rfl, rfl, rfl, rfl⟩

/-- C1 amended: rejection of empty/whitespace names holds in both rename
paths; the collision rejection with `NameConflict` (both files unchanged)
holds only in `saveRename` (`src/unnamed/part_001`), while `confirmRename`
(`index.tsx`) performs copy-then-delete with no collision check, so a
colliding target is overwritten with the original's content and the original
is deleted. -/
theorem rename_validation_spec (fs : FS) (item : RenameItem) (v docDir : Str)
    (c : Nat) :
    (trimStr v = [] →
      saveRename fs item v docDir = (fs, RenameOutcome.rejected) ∧
      confirmRename fs (some item) v docDir = (fs, RenameOutcome.rejected)) ∧
    (trimStr v ≠ [] → trimStr v ≠ replaceFirst dotPdf [] item.name →
      fs (docDir ++ (trimStr v ++ dotPdf)) = some c →
      saveRename fs item v docDir = (fs, RenameOutcome.nameConflict)) ∧
    (∀ d : Nat, trimStr v ≠ [] → fs item.uri = some d →
      item.uri ≠ docDir ++ (trimStr v ++ dotPdf) →
      (confirmRename fs (some item) v docDir).2 = RenameOutcome.success ∧
      (confirmRename fs (some item) v docDir).1 (docDir ++ (trimStr v ++ dotPdf)) =
        some d ∧
      (confirmRename fs (some item) v docDir).1 item.uri = none) := by
  refine ⟨?_, ?_, ?_⟩
  · intro h
    constructor
    · unfold saveRename
      rw [if_pos (Or.inl h)]
    · simp only [confirmRename]
      rw [if_pos h]
  · intro h1 h2 hcol
    unfold saveRename
    rw [if_neg (by
      rintro (ha | hb)
      · exact h1 ha
      · exact h2 hb)]
    rw [hcol]
  · intro d h1 hsrc hne
    simp only [confirmRename]
    rw [if_neg h1]
    unfold copyAsync
    rw [hsrc]
    dsimp only
    have hfs1 : fsInsert fs (docDir ++ (trimStr v ++ dotPdf)) d item.uri = some d := by
      unfold fsInsert
      rw [if_neg hne]
      exact hsrc
    unfold deleteAsync
    rw [hfs1]
    dsimp only
    refine ⟨rfl, ?_, ?_⟩
    · show fsRemove (fsInsert fs (docDir ++ (trimStr v ++ dotPdf)) d) item.uri
        (docDir ++ (trimStr v ++ dotPdf)) = some d
      unfold fsRemove fsInsert
      rw [if_neg (fun hh => hne hh.symm), if_pos rfl]
    · show fsRemove (fsInsert fs (docDir ++ (trimStr v ++ dotPdf)) d) item.uri
        item.uri = none
      unfold fsRemove
      rw [if_pos rfl]

/-- Witness for `rename_validation_spec`: a whitespace name is rejected, and
`saveRename` rejects renaming `Doc1.pdf` to the already existing `Doc2.pdf`
with the name-conflict outcome, leaving the file system unchanged. -/
theorem rename_validation_spec_witness :
    saveRename wFs0 wItem1 [' '] [] = (wFs0, RenameOutcome.rejected) ∧
    saveRename wFs0 wItem1 wDoc2 [] = (wFs0, RenameOutcome.nameConflict) :=
  ⟨((rename_validation_spec wFs0 wItem1 [' '] [] 0).1 (by decide)).1,
    (rename_validation_spec wFs0 wItem1 wDoc2 [] 2).2.1 (by decide) (by decide) rfl⟩

end ImageToPdf
